import Mathlib

/-!
Verification of the `sweeper` repository (`src/sweep.py`) against its
natural-language specification.

The file contains a shallow embedding of the two source functions:

* `generate_cmd_combinations` (sweep.py, lines 38-74): expansion of an
  argument spec into the Cartesian product of concrete commands;
* `schedule` (sweep.py, lines 77-140): the GPU poll-loop scheduler,
  embedded as a deterministic transition system parameterised by an
  environment giving, for each run index, how long the launched process
  runs, its exit code, and whether the spawn succeeds at all.

All definitions are translated from the Python source; theorems settle the
frozen claims about the spec.
-/

namespace Sweeper

instance {ε α : Type} [DecidableEq ε] [DecidableEq α] : DecidableEq (Except ε α) := fun x y =>
  match x, y with
  | .error a, .error b =>
    if h : a = b then .isTrue (by rw [h])
    else .isFalse (fun hc => h (by injection hc))
  | .error _, .ok _ => .isFalse (fun hc => Except.noConfusion hc)
  | .ok _, .error _ => .isFalse (fun hc => Except.noConfusion hc)
  | .ok a, .ok b =>
    if h : a = b then .isTrue (by rw [h])
    else .isFalse (fun hc => h (by injection hc))

/-! ## Python string splitting

`str.split(sep)` for a single-character separator, as used by
`arg.split("=")` and `values.split(",")` in `generate_cmd_combinations`
(sweep.py lines 56-57).  Python keeps empty fields: `"".split(",") = [""]`,
`"a,".split(",") = ["a", ""]`. -/

def splitChar (c : Char) : List Char → List (List Char)
  | [] => [[]]
  | x :: xs =>
    if x = c then [] :: splitChar c xs
    else
      match splitChar c xs with
      | [] => [[x]]
      | y :: ys => (x :: y) :: ys

def pySplit (c : Char) (s : String) : List String :=
  (splitChar c s.data).map fun l => ⟨l⟩

theorem splitChar_ne_nil (c : Char) (l : List Char) : splitChar c l ≠ [] := by
  induction l with
  | nil => simp [splitChar]
  | cons x xs ih =>
    simp only [splitChar]
    by_cases hx : x = c
    · simp [hx]
    · simp only [hx, if_false]
      cases h : splitChar c xs with
      | nil => simp
      | cons y ys => simp

theorem pySplit_ne_nil (c : Char) (s : String) : pySplit c s ≠ [] := by
  simp only [pySplit, ne_eq, List.map_eq_nil_iff]
  exact splitChar_ne_nil c s.data

/-! ## The argument dictionary

`arg_dict: Dict[str, List[str]] = {}` with Python `dict` semantics:
assignment to an existing key replaces the value but keeps the key's
original position; a new key is appended (sweep.py lines 54-57). -/

def dictInsert (d : List (String × List String)) (k : String) (v : List String) :
    List (String × List String) :=
  if d.any (fun p => p.1 == k) then
    d.map (fun p => if p.1 = k then (k, v) else p)
  else d ++ [(k, v)]

/-- The loop `for arg in args_list: key, values = arg.split("="); ...`
(sweep.py lines 55-57).  The tuple unpacking raises `ValueError` unless the
split yields exactly two parts; this is modelled by `Except.error`. -/
def buildArgDict : List String → List (String × List String) →
    Except Unit (List (String × List String))
  | [], d => .ok d
  | a :: rest, d =>
    match pySplit '=' a with
    | [k, v] => buildArgDict rest (dictInsert d k (pySplit ',' v))
    | _ => .error ()

/-- `itertools.product(*arg_dict.values())` (sweep.py line 60): Cartesian
product of the value lists, rightmost factor varying fastest. -/
def listProd : List (List String) → List (List String)
  | [] => [[]]
  | vs :: rest => vs.flatMap (fun v => (listProd rest).map (fun c => v :: c))

/-- Python `str.lower()`, character by character (ASCII case folding, which
is what the `"true"`/`"false"` comparisons in the source exercise). -/
def pyLower (s : String) : String :=
  ⟨s.data.map Char.toLower⟩

/-- Rendering of one `key, value` pair into command tokens
(sweep.py lines 65-71). -/
def renderPair (k v : String) : List String :=
  if pyLower v = "true" then ["--" ++ k]
  else if pyLower v = "false" then ["--no-" ++ k]
  else ["--" ++ k, v]

/-- One full command `["python", script] + flags` for one combination
(sweep.py lines 63-72); `zip(keys, combination)` preserves key order. -/
def renderCmd (script : String) (keys : List String) (combo : List String) :
    List String :=
  ["python", script] ++ (keys.zip combo).flatMap (fun p => renderPair p.1 p.2)

/-- `generate_cmd_combinations` (sweep.py lines 38-74). -/
def generate_cmd_combinations (script : String) (args_list : List String) :
    Except Unit (List (List String)) :=
  match buildArgDict args_list [] with
  | .error e => .error e
  | .ok d => .ok ((listProd (d.map Prod.snd)).map (renderCmd script (d.map Prod.fst)))

/-! ### Lemmas about the expander -/

theorem listProd_length (ls : List (List String)) :
    (listProd ls).length = (ls.map List.length).prod := by
  induction ls with
  | nil => simp [listProd]
  | cons vs rest ih =>
    simp only [listProd, List.map_cons, List.prod_cons, ← ih]
    induction vs with
    | nil => simp
    | cons v vs ihv =>
      simp only [List.flatMap_cons, List.length_append, List.length_map,
        List.length_cons, ihv]
      ring

theorem listProd_nodup (ls : List (List String)) (h : ∀ l ∈ ls, l.Nodup) :
    (listProd ls).Nodup := by
  induction ls with
  | nil => simp [listProd]
  | cons vs rest ih =>
    have hrest : (listProd rest).Nodup := ih (fun l hl => h l (List.mem_cons_of_mem _ hl))
    have hvs : vs.Nodup := h vs (List.mem_cons_self _ _)
    simp only [listProd]
    clear ih h
    induction vs with
    | nil => simp
    | cons v vs ihv =>
      simp only [List.flatMap_cons]
      rcases List.nodup_cons.mp hvs with ⟨hvnot, hvs'⟩
      refine List.Nodup.append ?_ (ihv hvs') ?_
      · exact hrest.map (fun a b hab => List.tail_eq_of_cons_eq hab)
      · intro x hx hx'
        rcases List.mem_map.mp hx with ⟨c, _, rfl⟩
        rcases List.mem_flatMap.mp hx' with ⟨w, hw, hwx⟩
        rcases List.mem_map.mp hwx with ⟨c', _, hc'⟩
        have : v = w := (List.head_eq_of_cons_eq hc'.symm)
        exact hvnot (this ▸ hw)

theorem dictInsert_mem {d : List (String × List String)} {k : String}
    {v : List String} {q : String × List String} (hq : q ∈ dictInsert d k v) :
    q = (k, v) ∨ q ∈ d := by
  unfold dictInsert at hq
  split at hq
  · rcases List.mem_map.mp hq with ⟨p, hp, hpq⟩
    by_cases hpk : p.1 = k
    · simp only [hpk, if_pos] at hpq
      exact Or.inl hpq.symm
    · simp only [hpk, if_neg, not_false_iff] at hpq
      exact Or.inr (hpq ▸ hp)
  · rcases List.mem_append.mp hq with h | h
    · exact Or.inr h
    · exact Or.inl (List.mem_singleton.mp h)

theorem buildArgDict_missing_eq :
    ∀ (args : List String) (d0 : List (String × List String)),
    (∃ a ∈ args, (pySplit '=' a).length = 1) → buildArgDict args d0 = .error () := by
  intro args
  induction args with
  | nil => intro d0 h; simp at h
  | cons a rest ih =>
    intro d0 h
    rcases h with ⟨b, hb, hlen⟩
    simp only [buildArgDict]
    rcases List.mem_cons.mp hb with rfl | hbrest
    · cases hsp : pySplit '=' b with
      | nil => simp [hsp]
      | cons x xs =>
        cases xs with
        | nil => simp [hsp]
        | cons y ys =>
          rw [hsp] at hlen
          simp at hlen
    · cases hsp : pySplit '=' a with
      | nil => simp [hsp]
      | cons x xs =>
        cases xs with
        | nil => simp [hsp]
        | cons y ys =>
          cases ys with
          | nil =>
            simp only [hsp]
            exact ih _ ⟨b, hbrest, hlen⟩
          | cons z zs => simp [hsp]

theorem buildArgDict_values_ne_nil :
    ∀ (args : List String) (d0 d : List (String × List String)),
    (∀ p ∈ d0, p.2 ≠ []) → buildArgDict args d0 = .ok d → ∀ p ∈ d, p.2 ≠ [] := by
  intro args
  induction args with
  | nil =>
    intro d0 d h0 hok
    simp only [buildArgDict] at hok
    injection hok with hok
    exact hok ▸ h0
  | cons a rest ih =>
    intro d0 d h0 hok
    simp only [buildArgDict] at hok
    cases hsp : pySplit '=' a with
    | nil => rw [hsp] at hok; exact absurd hok (by simp)
    | cons x xs =>
      cases xs with
      | nil => rw [hsp] at hok; exact absurd hok (by simp)
      | cons y ys =>
        cases ys with
        | nil =>
          rw [hsp] at hok
          refine ih _ _ ?_ hok
          intro p hp
          rcases dictInsert_mem hp with rfl | hpd
          · exact pySplit_ne_nil ',' y
          · exact h0 p hpd
        | cons z zs => rw [hsp] at hok; exact absurd hok (by simp)

/-! ## Claims about the combination expander -/

/-- **C7, counterexample.**  The claim states that the expander's commands
are "each a distinct combination of one value per key".  With the spec
`a=1,1` (a value list with a repeated candidate) the source produces the
same command twice, so the generated commands are not distinct. -/
theorem claim7_counterexample :
    generate_cmd_combinations "s" ["a=1,1"] =
      .ok [["python", "s", "--a", "1"], ["python", "s", "--a", "1"]] ∧
    ¬ ([["python", "s", "--a", "1"], ["python", "s", "--a", "1"]] :
        List (List String)).Nodup := by
  exact ⟨by decide, by decide⟩

/-- **C7 (amended).**  For every argument spec parsed into a dictionary `d`
with `k` keys, the expander produces exactly `n₁ × … × nₖ` commands,
enumerated as the map of the rendering function over the Cartesian product
of the value lists (rightmost value varying fastest, flags in key order
inside each command); and provided every value list is duplicate-free, the
enumerated combinations are pairwise distinct. -/
theorem claim7_product_counts_and_order (script : String) (args_list : List String)
    (d : List (String × List String))
    (hd : buildArgDict args_list [] = .ok d)
    (hnd : ∀ p ∈ d, p.2.Nodup) :
    generate_cmd_combinations script args_list =
      .ok ((listProd (d.map Prod.snd)).map (renderCmd script (d.map Prod.fst))) ∧
    (listProd (d.map Prod.snd)).length = (d.map (fun p => p.2.length)).prod ∧
    (listProd (d.map Prod.snd)).Nodup := by
  refine ⟨?_, ?_, ?_⟩
  · simp [generate_cmd_combinations, hd]
  · rw [listProd_length, List.map_map]
    rfl
  · refine listProd_nodup _ ?_
    intro l hl
    rcases List.mem_map.mp hl with ⟨p, hp, rfl⟩
    exact hnd p hp

theorem claim7_witness :
    (∀ p ∈ [("lr", ["0.1", "0.2"]), ("flag", ["true", "false"])], p.2.Nodup) ∧
    (generate_cmd_combinations "toy.py" ["lr=0.1,0.2", "flag=true,false"] =
      .ok ((listProd ([("lr", ["0.1", "0.2"]), ("flag", ["true", "false"])].map Prod.snd)).map
        (renderCmd "toy.py" ([("lr", ["0.1", "0.2"]), ("flag", ["true", "false"])].map Prod.fst))) ∧
    (listProd ([("lr", ["0.1", "0.2"]), ("flag", ["true", "false"])].map Prod.snd)).length =
      ([("lr", ["0.1", "0.2"]), ("flag", ["true", "false"])].map (fun p => p.2.length)).prod ∧
    (listProd ([("lr", ["0.1", "0.2"]), ("flag", ["true", "false"])].map Prod.snd)).Nodup) :=
  ⟨by decide,
   claim7_product_counts_and_order "toy.py" ["lr=0.1,0.2", "flag=true,false"]
     [("lr", ["0.1", "0.2"]), ("flag", ["true", "false"])] (by decide) (by decide)⟩

/-- **C8.**  Every generated command consists of `["python", script]`
followed, key by key in input order, by: the presence flag `--key` alone
when the chosen value lowercases to `"true"`; the negated flag `--no-key`
alone when it lowercases to `"false"`; and the flag `--key` followed by the
literal value token otherwise. -/
theorem claim8_boolean_flag_rendering (script : String) (args_list : List String)
    (d : List (String × List String)) (cmds : List (List String))
    (hd : buildArgDict args_list [] = .ok d)
    (hc : generate_cmd_combinations script args_list = .ok cmds) :
    ∀ cmd ∈ cmds, ∃ combo ∈ listProd (d.map Prod.snd),
      cmd = ["python", script] ++
        ((d.map Prod.fst).zip combo).flatMap (fun p =>
          if pyLower p.2 = "true" then ["--" ++ p.1]
          else if pyLower p.2 = "false" then ["--no-" ++ p.1]
          else ["--" ++ p.1, p.2]) := by
  intro cmd hcmd
  rw [generate_cmd_combinations, hd] at hc
  injection hc with hc
  subst hc
  rcases List.mem_map.mp hcmd with ⟨combo, hcombo, rfl⟩
  exact ⟨combo, hcombo, rfl⟩

theorem claim8_witness :
    buildArgDict ["flag=true,False,x"] [] = .ok [("flag", ["true", "False", "x"])] ∧
    generate_cmd_combinations "s" ["flag=true,False,x"] =
      .ok [["python", "s", "--flag"], ["python", "s", "--no-flag"],
           ["python", "s", "--flag", "x"]] ∧
    (∃ combo ∈ listProd ([("flag", ["true", "False", "x"])].map Prod.snd),
      ["python", "s", "--no-flag"] = ["python", "s"] ++
        (([("flag", ["true", "False", "x"])].map Prod.fst).zip combo).flatMap (fun p =>
          if pyLower p.2 = "true" then ["--" ++ p.1]
          else if pyLower p.2 = "false" then ["--no-" ++ p.1]
          else ["--" ++ p.1, p.2])) :=
  ⟨by decide, by decide,
   claim8_boolean_flag_rendering "s" ["flag=true,False,x"]
     [("flag", ["true", "False", "x"])]
     [["python", "s", "--flag"], ["python", "s", "--no-flag"],
      ["python", "s", "--flag", "x"]]
     (by decide) (by decide) ["python", "s", "--no-flag"] (by decide)⟩

theorem splitChar_append_sep (c : Char) :
    ∀ (l : List Char), c ∉ l → splitChar c (l ++ [c]) = [l, []] := by
  intro l
  induction l with
  | nil =>
    intro _
    simp [splitChar]
  | cons x xs ih =>
    intro h
    have hx : x ≠ c := fun hc => h (hc ▸ List.mem_cons_self _ _)
    show splitChar c (x :: (xs ++ [c])) = [x :: xs, []]
    simp only [splitChar, hx, if_false]
    rw [ih (fun hc => h (List.mem_cons_of_mem _ hc))]

/-- Python `"name=".split("=") = ["name", ""]` for a key containing no
`=`: the empty-value spec string parses fine, with the empty string as the
value part. -/
theorem pySplit_key_empty_value (k : String) (h : '=' ∉ k.data) :
    pySplit '=' (k ++ "=") = [k, ""] := by
  have hdata : (k ++ "=").data = k.data ++ ['='] := rfl
  rw [pySplit, hdata, splitChar_append_sep '=' k.data h]
  rfl

/-- **C9, counterexample.**  The claim states that a spec argument with an
empty value list is fatal and surfaced before any job starts.  The
realizable empty-value spec `a=` is accepted by the source without any
error: it yields the command `python s --a ""` (an empty value token),
which the coordinator then schedules and launches like any other job. -/
theorem claim9_counterexample :
    generate_cmd_combinations "s" ["a="] = .ok [["python", "s", "--a", ""]] ∧
    generate_cmd_combinations "s" ["a="] ≠ .error () := by
  exact ⟨by decide, by decide⟩

/-- **C9 (amended).**  An argument string missing `=` is fatal and
surfaced before any job starts: the expander raises (model:
`Except.error`) while building the dictionary, before any command list is
returned to the coordinator, which only creates run directories and
launches processes for a returned command list.  An argument string with
an empty value (`name=`) is, however, not treated as malformed: it parses
to the single-candidate value list `[""]` and produces the command
`["python", script, "--name", ""]`, scheduled like any other job. -/
theorem claim9_amended (script : String) (args_list : List String) (k : String) :
    ((∃ a ∈ args_list, (pySplit '=' a).length = 1) →
      generate_cmd_combinations script args_list = .error ()) ∧
    ('=' ∉ k.data →
      generate_cmd_combinations script [k ++ "="] =
        .ok [["python", script, "--" ++ k, ""]]) := by
  constructor
  · intro h
    rw [generate_cmd_combinations, buildArgDict_missing_eq args_list [] h]
  · intro hk
    have hbuild : buildArgDict [k ++ "="] [] = .ok [(k, [""])] := by
      simp only [buildArgDict, pySplit_key_empty_value k hk]
      rfl
    rw [generate_cmd_combinations, hbuild]
    show Except.ok ((listProd [[""]]).map (renderCmd script [k])) = _
    have hrp : renderPair k "" = ["--" ++ k, ""] := by
      rw [renderPair, if_neg (by decide), if_neg (by decide)]
    have hrc : renderCmd script [k] [""] = ["python", script, "--" ++ k, ""] := by
      rw [renderCmd]
      show ["python", script] ++ renderPair k "" = _
      rw [hrp]
      rfl
    show Except.ok [renderCmd script [k] [""]] = _
    rw [hrc]

theorem claim9_witness :
    generate_cmd_combinations "s" ["noequalsign"] = .error () ∧
    generate_cmd_combinations "s" ["a="] = .ok [["python", "s", "--a", ""]] :=
  ⟨(claim9_amended "s" ["noequalsign"] "a").1 ⟨"noequalsign", by decide, by decide⟩,
   (claim9_amended "s" ["noequalsign"] "a").2 (by decide)⟩

/-! ## Run directories (C6)

`run_dir = os.path.join(sweep_dir, f"run_{run_count}")` followed by
`os.makedirs(run_dir, exist_ok=True)` (sweep.py lines 100-101).
`makedirs` models `os.makedirs` on an abstract file system (the list of
existing directories): with `exist_ok=False` it raises if the directory
exists, with `exist_ok=True` it silently succeeds. -/

def runDirOf (sweep_dir : String) (i : Nat) : String :=
  sweep_dir ++ "/run_" ++ toString i

def makedirs (fs : List String) (dir : String) (exist_ok : Bool) :
    Except Unit (List String) :=
  if dir ∈ fs then (if exist_ok then .ok fs else .error ())
  else .ok (fs ++ [dir])

/-- The run-directory preparation exactly as the scheduler performs it
(sweep.py lines 100-101): note the source passes `exist_ok=True`. -/
def prepareRunDir (fs : List String) (sweep_dir : String) (i : Nat) :
    Except Unit (List String) :=
  makedirs fs (runDirOf sweep_dir i) true

/-- **C6, counterexample.**  The claim states that preparing
`sweepRoot/run_<runIndex>` fails loudly when the directory already exists.
In the source the directory is created with `exist_ok=True`: preparing
`run_1` when `sweep/run_1` already exists succeeds silently. -/
theorem claim6_counterexample :
    prepareRunDir ["sweep/run_1"] "sweep" 1 = .ok ["sweep/run_1"] := by decide

/-- **C6 (amended).**  Preparing the run directory never fails: whether or
not `sweepRoot/run_<runIndex>` already exists, the call succeeds (silently
reusing an existing directory, whose `output.log` is then overwritten) and
afterwards the directory exists. -/
theorem claim6_amended_silent_reuse (fs : List String) (sweep_dir : String) (i : Nat) :
    ∃ fs2, prepareRunDir fs sweep_dir i = .ok fs2 ∧ runDirOf sweep_dir i ∈ fs2 := by
  unfold prepareRunDir makedirs
  by_cases h : runDirOf sweep_dir i ∈ fs
  · exact ⟨fs, by simp [h], h⟩
  · exact ⟨fs ++ [runDirOf sweep_dir i], by simp [h], by simp⟩

/-! ## The scheduler (`schedule`, sweep.py lines 77-140)

The poll loop is embedded as a transition system.  One `schedStep` is one
iteration of the `while` loop: a sweep over all GPU slots in declaration
order (the `for gpu, process in gpu_status.items()` loop) followed by the
`time.sleep(1)` tick, modelled by incrementing the iteration counter.

The external world is an `Env`:
* `dur i` — for the run with index `i`, the number of loop iterations after
  its start at which `process.poll()` stops returning `None` (every process
  eventually exits iff `dur` is a total function into `Nat`, which it is);
* `code i` — the exit code `process.returncode` of run `i`;
* `spawnOk i` — whether `subprocess.Popen` succeeds for run `i`; when it is
  `false` the `Popen` call raises (for instance `FileNotFoundError` for a
  missing executable), which the source does not catch: the exception
  propagates out of `schedule`, modelled by the `exn` flag freezing the
  whole system.

`dispatched` and `completed` are ghost logs recording, in order, the run
index, GPU and command of each dispatch, and the run index and GPU of each
observed completion; they only record events and never influence control
flow. -/

structure RunInfo where
  idx : Nat
  cmd : List String
  run_dir : String
  start : Nat
deriving DecidableEq

/-- One entry of `failed_jobs` (sweep.py lines 126-133). -/
structure FailureRec where
  gpu : String
  run_dir : String
  cmd : List String
  exit_code : Int
deriving DecidableEq

structure Env where
  dur : Nat → Nat
  code : Nat → Int
  spawnOk : Nat → Bool

/-- The state threaded through the slot sweep besides the slot table:
`job_queue`, `failed_jobs`, `run_count`, the ghost logs and the
pending-exception flag. -/
structure SchedCore where
  queue : List (List String)
  failed : List FailureRec
  runCount : Nat
  dispatched : List (Nat × String × List String)
  completed : List (Nat × String)
  exn : Bool
deriving DecidableEq

structure SchedState where
  slots : List (String × Option RunInfo)
  core : SchedCore
  iter : Nat
deriving DecidableEq

/-- The body of the `for gpu, process in gpu_status.items()` loop for one
slot (sweep.py lines 97-136).  An idle slot with a non-empty queue pops the
head job, creates its run directory (`exist_ok=True`, so never failing; see
`prepareRunDir`), spawns the process and occupies the slot — unless the
spawn raises, in which case the job is already popped but no slot is
occupied and no run count allocated.  A busy slot whose process has exited
is classified by exit code and released. -/
def stepGpu (e : Env) (sweep_dir : String) (iter : Nat) (gpu : String)
    (slot : Option RunInfo) (t : SchedCore) : Option RunInfo × SchedCore :=
  match slot with
  | none =>
    match t.queue with
    | [] => (none, t)
    | cmd :: rest =>
      if e.spawnOk t.runCount then
        (some ⟨t.runCount, cmd, runDirOf sweep_dir t.runCount, iter⟩,
          { t with queue := rest, runCount := t.runCount + 1,
                   dispatched := t.dispatched ++ [(t.runCount, gpu, cmd)] })
      else
        (none, { t with queue := rest, exn := true })
  | some r =>
    if r.start + e.dur r.idx ≤ iter then
      if e.code r.idx ≠ 0 then
        (none, { t with
          failed := t.failed ++ [⟨gpu, r.run_dir, r.cmd, e.code r.idx⟩],
          completed := t.completed ++ [(r.idx, gpu)] })
      else
        (none, { t with completed := t.completed ++ [(r.idx, gpu)] })
    else (some r, t)

/-- One full sweep over the slot table in declaration order.  A pending
exception aborts the rest of the sweep (it propagates out of the `for`
loop). -/
def sweepSlots (e : Env) (sweep_dir : String) (iter : Nat) :
    List (String × Option RunInfo) → SchedCore →
    List (String × Option RunInfo) × SchedCore
  | [], t => ([], t)
  | (g, slot) :: rest, t =>
    if t.exn then ((g, slot) :: rest, t)
    else
      let p := stepGpu e sweep_dir iter g slot t
      let q := sweepSlots e sweep_dir iter rest p.2
      ((g, p.1) :: q.1, q.2)

/-- `while job_queue or any(gpu_status.values())` (sweep.py line 96): the
loop continues while the queue is non-empty or some slot is busy. -/
def loopDone (st : SchedState) : Bool :=
  st.core.queue.isEmpty && st.slots.all (fun p => p.2.isNone)

/-- One iteration of the `while` loop.  A finished loop, or a propagating
exception, leaves the state unchanged forever. -/
def schedStep (e : Env) (sweep_dir : String) (st : SchedState) : SchedState :=
  if st.core.exn || loopDone st then st
  else
    let p := sweepSlots e sweep_dir st.iter st.slots st.core
    { slots := p.1, core := p.2, iter := st.iter + 1 }

/-- First-occurrence deduplication: `{gpu: None for gpu in gpu_ids}` keeps
one slot per distinct device id, at its first position (Python `dict`
comprehension semantics). -/
def pyDedupAux : List String → List String → List String
  | _, [] => []
  | seen, g :: rest =>
    if g ∈ seen then pyDedupAux seen rest
    else g :: pyDedupAux (g :: seen) rest

def pyDedup (l : List String) : List String := pyDedupAux [] l

/-- The state at entry of the `while` loop (sweep.py lines 91-95). -/
def initState (gpu_ids : List String) (jobs : List (List String)) : SchedState :=
  { slots := (pyDedup gpu_ids).map (fun g => (g, none)),
    core := { queue := jobs, failed := [], runCount := 1,
              dispatched := [], completed := [], exn := false },
    iter := 0 }

/-- The scheduler's state after `n` loop iterations. -/
def schedTrace (e : Env) (sweep_dir : String) (gpu_ids : List String)
    (jobs : List (List String)) : Nat → SchedState
  | 0 => initState gpu_ids jobs
  | n + 1 => schedStep e sweep_dir (schedTrace e sweep_dir gpu_ids jobs n)

/-- `schedule` itself: run the loop; once it has finished, the returned
value is the accumulated `failed_jobs` list. -/
def schedule (e : Env) (gpu_ids : List String) (jobs : List (List String))
    (sweep_dir : String) (fuel : Nat) : Option (List FailureRec) :=
  if loopDone (schedTrace e sweep_dir gpu_ids jobs fuel) then
    some (schedTrace e sweep_dir gpu_ids jobs fuel).core.failed
  else none

def busyIdxs (slots : List (String × Option RunInfo)) : List Nat :=
  slots.filterMap (fun p => p.2.map (fun r => r.idx))

def busyCount (slots : List (String × Option RunInfo)) : Nat :=
  slots.countP (fun p => p.2.isSome)

/-- The command of the run with (1-based) index `i`. -/
def cmdOf (jobs : List (List String)) (i : Nat) : List String :=
  jobs.getD (i - 1) []

/-! ### Basic facts about `pyDedup` (the slot table construction, C10) -/

theorem pyDedupAux_mem :
    ∀ (l seen : List String) (x : String),
    x ∈ pyDedupAux seen l ↔ (x ∈ l ∧ x ∉ seen) := by
  intro l
  induction l with
  | nil => intro seen x; simp [pyDedupAux]
  | cons g rest ih =>
    intro seen x
    simp only [pyDedupAux]
    by_cases hg : g ∈ seen
    · rw [if_pos hg, ih]
      constructor
      · rintro ⟨hx, hxs⟩
        exact ⟨List.mem_cons_of_mem _ hx, hxs⟩
      · rintro ⟨hx, hxs⟩
        rcases List.mem_cons.mp hx with rfl | hx
        · exact absurd hg hxs
        · exact ⟨hx, hxs⟩
    · rw [if_neg hg]
      simp only [List.mem_cons, ih]
      constructor
      · rintro (rfl | ⟨hx, hxs⟩)
        · exact ⟨Or.inl rfl, hg⟩
        · exact ⟨Or.inr hx, fun hc => hxs (Or.inr hc)⟩
      · rintro ⟨rfl | hx, hxs⟩
        · exact Or.inl rfl
        · by_cases hxg : x = g
          · exact Or.inl hxg
          · exact Or.inr ⟨hx, by simp [hxg, hxs]⟩

theorem pyDedupAux_nodup : ∀ (l seen : List String), (pyDedupAux seen l).Nodup := by
  intro l
  induction l with
  | nil => intro seen; simp [pyDedupAux]
  | cons g rest ih =>
    intro seen
    simp only [pyDedupAux]
    by_cases hg : g ∈ seen
    · rw [if_pos hg]; exact ih seen
    · rw [if_neg hg]
      refine List.nodup_cons.mpr ⟨?_, ih _⟩
      intro hc
      exact ((pyDedupAux_mem _ _ _).mp hc).2 (List.mem_cons_self _ _)

theorem pyDedup_mem (l : List String) (x : String) : x ∈ pyDedup l ↔ x ∈ l := by
  rw [pyDedup, pyDedupAux_mem]
  simp

theorem pyDedup_nodup (l : List String) : (pyDedup l).Nodup := pyDedupAux_nodup l []

theorem pyDedupAux_length_le : ∀ (l seen : List String),
    (pyDedupAux seen l).length ≤ l.length := by
  intro l
  induction l with
  | nil => intro seen; simp [pyDedupAux]
  | cons g rest ih =>
    intro seen
    simp only [pyDedupAux]
    by_cases hg : g ∈ seen
    · rw [if_pos hg]
      exact le_trans (ih seen) (Nat.le_succ _)
    · rw [if_neg hg]
      simpa using ih (g :: seen)

theorem pyDedupAux_length_lt : ∀ (l seen : List String),
    (¬ l.Nodup ∨ ∃ x ∈ l, x ∈ seen) → (pyDedupAux seen l).length < l.length := by
  intro l
  induction l with
  | nil =>
    intro seen h
    rcases h with h | ⟨x, hx, _⟩
    · exact absurd List.nodup_nil h
    · simp at hx
  | cons g rest ih =>
    intro seen h
    simp only [pyDedupAux]
    by_cases hg : g ∈ seen
    · rw [if_pos hg]
      exact Nat.lt_succ_of_le (pyDedupAux_length_le rest seen)
    · rw [if_neg hg]
      simp only [List.length_cons, Nat.succ_lt_succ_iff]
      refine ih (g :: seen) ?_
      rcases h with h | ⟨x, hx, hxs⟩
      · rw [List.nodup_cons] at h
        push_neg at h
        by_cases hgr : g ∈ rest
        · exact Or.inr ⟨g, hgr, List.mem_cons_self _ _⟩
        · exact Or.inl (h hgr)
      · rcases List.mem_cons.mp hx with rfl | hxr
        · exact absurd hxs hg
        · exact Or.inr ⟨x, hxr, List.mem_cons_of_mem _ hxs⟩

/-- `pyDedup` on a list with duplicates is strictly shorter. -/
theorem pyDedup_length_lt (l : List String) (h : ¬ l.Nodup) :
    (pyDedup l).length < l.length :=
  pyDedupAux_length_lt l [] (Or.inl h)

theorem pyDedup_length_le (l : List String) : (pyDedup l).length ≤ l.length :=
  pyDedupAux_length_le l []

/-! ### The scheduler invariant -/

/-- What is true of a busy slot holding run `r` on device `g`, relative to
the threaded core state `t` and a bound `bnd` on the iteration counter. -/
def SlotFact (e : Env) (sd : String) (jobs : List (List String))
    (t : SchedCore) (bnd : Nat) (g : String) (r : RunInfo) : Prop :=
  1 ≤ r.idx ∧ r.idx ≤ t.dispatched.length ∧ r.cmd = cmdOf jobs r.idx ∧
  r.run_dir = runDirOf sd r.idx ∧ (r.idx, g, r.cmd) ∈ t.dispatched ∧
  r.start < bnd ∧ bnd ≤ r.start + e.dur r.idx + 1

def SlotsOK (e : Env) (sd : String) (jobs : List (List String))
    (t : SchedCore) (bnd : Nat)
    (slots : List (String × Option RunInfo)) : Prop :=
  ∀ p ∈ slots, ∀ r, p.2 = some r → SlotFact e sd jobs t bnd p.1 r

/-- Invariant of the threaded core state. -/
structure CoreInv (e : Env) (sd : String) (jobs : List (List String))
    (t : SchedCore) : Prop where
  exnF : t.exn = false
  rc : t.runCount = t.dispatched.length + 1
  dIdx : t.dispatched.map (fun d => d.1) = List.range' 1 t.dispatched.length
  dLen : t.dispatched.length ≤ jobs.length
  dCmd : ∀ d ∈ t.dispatched, d.2.2 = cmdOf jobs d.1
  qEq : t.queue = jobs.drop t.dispatched.length
  compMem : ∀ c ∈ t.completed, (c.1, c.2, cmdOf jobs c.1) ∈ t.dispatched
  failedEq : t.failed =
    (t.completed.filter (fun c => decide (e.code c.1 ≠ 0))).map
      (fun c => ⟨c.2, runDirOf sd c.1, cmdOf jobs c.1, e.code c.1⟩)

/-- The full scheduler invariant at loop-iteration boundaries. -/
structure Inv (e : Env) (sd : String) (gpus : List String)
    (jobs : List (List String)) (st : SchedState) : Prop where
  core : CoreInv e sd jobs st.core
  keys : st.slots.map Prod.fst = pyDedup gpus
  slotsOK : SlotsOK e sd jobs st.core st.iter st.slots
  partNodup : (st.core.completed.map Prod.fst ++ busyIdxs st.slots).Nodup
  partMem : ∀ i : Nat,
    (i ∈ st.core.completed.map Prod.fst ++ busyIdxs st.slots) ↔
      (1 ≤ i ∧ i ≤ st.core.dispatched.length)

theorem SlotFact.mono {e : Env} {sd : String} {jobs : List (List String)}
    {t t2 : SchedCore} {bnd : Nat} {g : String} {r : RunInfo}
    (h : SlotFact e sd jobs t bnd g r)
    (hext : ∃ ext, t2.dispatched = t.dispatched ++ ext) :
    SlotFact e sd jobs t2 bnd g r := by
  obtain ⟨ext, hext⟩ := hext
  obtain ⟨h1, h2, h3, h4, h5, h6, h7⟩ := h
  refine ⟨h1, ?_, h3, h4, ?_, h6, h7⟩
  · rw [hext, List.length_append]
    omega
  · rw [hext]
    exact List.mem_append_left _ h5

theorem sweepSlots_keys (e : Env) (sd : String) (iter : Nat) :
    ∀ (slots : List (String × Option RunInfo)) (t : SchedCore),
    (sweepSlots e sd iter slots t).1.map Prod.fst = slots.map Prod.fst := by
  intro slots
  induction slots with
  | nil => intro t; simp [sweepSlots]
  | cons p rest ih =>
    intro t
    obtain ⟨g, slot⟩ := p
    simp only [sweepSlots]
    by_cases hexn : t.exn
    · rw [if_pos hexn]
    · rw [if_neg hexn]
      simp [ih]

def slotIdxList (slot : Option RunInfo) : List Nat :=
  (slot.map (fun r => r.idx)).toList

theorem slotIdxList_none : slotIdxList none = [] := rfl

theorem slotIdxList_some (r : RunInfo) : slotIdxList (some r) = [r.idx] := rfl

theorem busyIdxs_cons (g : String) (slot : Option RunInfo)
    (rest : List (String × Option RunInfo)) :
    busyIdxs ((g, slot) :: rest) = slotIdxList slot ++ busyIdxs rest := by
  cases slot <;> simp [busyIdxs, slotIdxList, List.filterMap_cons]

/-- Everything one `stepGpu` call guarantees, relative to the entry core
state `t` and the slot contents `slot` it was given. -/
def StepPost (e : Env) (sd : String) (jobs : List (List String)) (iter : Nat)
    (g : String) (slot : Option RunInfo) (t : SchedCore)
    (res : Option RunInfo × SchedCore) : Prop :=
  CoreInv e sd jobs res.2 ∧
  (∀ r, res.1 = some r → SlotFact e sd jobs res.2 (iter + 1) g r) ∧
  (∃ ext, res.2.dispatched = t.dispatched ++ ext) ∧
  t.runCount ≤ res.2.runCount ∧
  ((↑(res.2.completed.map Prod.fst) : Multiset Nat) + ↑(slotIdxList res.1) =
    ↑(t.completed.map Prod.fst) + ↑(slotIdxList slot) +
      ↑(List.range' t.runCount (res.2.runCount - t.runCount)))

theorem stepGpu_post (e : Env) (sd : String) (jobs : List (List String))
    (hspawn : ∀ i, e.spawnOk i = true)
    (iter : Nat) (g : String) (slot : Option RunInfo) (t : SchedCore)
    (hc : CoreInv e sd jobs t)
    (hs : ∀ r, slot = some r → SlotFact e sd jobs t iter g r) :
    StepPost e sd jobs iter g slot t (stepGpu e sd iter g slot t) := by
  rcases slot with _ | r
  · cases hq : t.queue with
    | nil =>
      simp only [stepGpu, hq]
      refine ⟨hc, by simp, ⟨[], by simp⟩, le_refl _, ?_⟩
      simp [slotIdxList_none, Multiset.coe_nil]
    | cons c rest =>
      have hlen : t.dispatched.length < jobs.length := by
        have hdr : jobs.drop t.dispatched.length = c :: rest := hc.qEq.symm.trans hq
        have := congrArg List.length hdr
        rw [List.length_drop] at this
        simp only [List.length_cons] at this
        omega
      have hcmd : cmdOf jobs t.runCount = c := by
        have hdr : jobs.drop t.dispatched.length = c :: rest := hc.qEq.symm.trans hq
        have h0 : jobs[t.dispatched.length + 0]? = some c := by
          rw [← List.getElem?_drop, hdr]
          simp
        rw [cmdOf, hc.rc, List.getD_eq_getElem?_getD]
        simp only [Nat.add_sub_cancel]
        simp only [Nat.add_zero] at h0
        rw [h0]
        rfl
      have hrc := hc.rc
      simp only [stepGpu, hq, hspawn t.runCount, if_pos]
      refine ⟨?_, ?_, ⟨[(t.runCount, g, c)], rfl⟩, Nat.le_succ _, ?_⟩
      · refine ⟨hc.exnF, ?_, ?_, ?_, ?_, ?_, ?_, hc.failedEq⟩
        · simp only [List.length_append, List.length_singleton]
          omega
        · simp only [List.map_append, hc.dIdx, List.length_append,
            List.length_singleton, List.map_cons, List.map_nil]
          rw [List.range'_concat]
          congr 2
          omega
        · simp only [List.length_append, List.length_singleton]
          omega
        · intro d hd
          rcases List.mem_append.mp hd with hd | hd
          · exact hc.dCmd d hd
          · rcases List.mem_singleton.mp hd with rfl
            exact hcmd.symm
        · show rest = jobs.drop (t.dispatched ++ [(t.runCount, g, c)]).length
          have hdr : jobs.drop t.dispatched.length = c :: rest := hc.qEq.symm.trans hq
          rw [List.length_append, List.length_singleton, ← List.drop_drop, hdr]
          rfl
        · intro x hx
          exact List.mem_append_left _ (hc.compMem x hx)
      · rintro r hr
        injection hr with hr
        subst hr
        refine ⟨?_, ?_, hcmd.symm, rfl, ?_, ?_, ?_⟩
        · show 1 ≤ t.runCount
          omega
        · show t.runCount ≤ (t.dispatched ++ [(t.runCount, g, c)]).length
          simp only [List.length_append, List.length_singleton]
          omega
        · show (t.runCount, g, c) ∈ t.dispatched ++ [(t.runCount, g, c)]
          exact List.mem_append_right _ (List.mem_singleton_self _)
        · show iter < iter + 1
          omega
        · show iter + 1 ≤ iter + e.dur t.runCount + 1
          omega
      · show (↑(t.completed.map Prod.fst) : Multiset Nat) +
            ↑(slotIdxList (some ⟨t.runCount, c, runDirOf sd t.runCount, iter⟩)) =
          ↑(t.completed.map Prod.fst) + ↑(slotIdxList none) +
            ↑(List.range' t.runCount (t.runCount + 1 - t.runCount))
        have hsl : slotIdxList (some ⟨t.runCount, c, runDirOf sd t.runCount, iter⟩) =
            [t.runCount] := rfl
        rw [hsl, slotIdxList_none, Nat.add_sub_cancel_left,
          List.range'_one, Multiset.coe_nil]
        abel
  · have hsf := hs r rfl
    by_cases hex : r.start + e.dur r.idx ≤ iter
    · by_cases hcode : e.code r.idx ≠ 0
      · simp only [stepGpu, if_pos hex, if_pos hcode]
        refine ⟨?_, by simp, ⟨[], by simp⟩, le_refl _, ?_⟩
        · refine ⟨hc.exnF, hc.rc, hc.dIdx, hc.dLen, hc.dCmd, hc.qEq, ?_, ?_⟩
          · intro x hx
            rcases List.mem_append.mp hx with hx | hx
            · exact hc.compMem x hx
            · rcases List.mem_singleton.mp hx with rfl
              simpa [← hsf.2.2.1] using hsf.2.2.2.2.1
          · have hfil : List.filter (fun x => decide (e.code x.1 ≠ 0)) [(r.idx, g)] =
                [(r.idx, g)] := by simp [hcode]
            rw [List.filter_append, List.map_append, ← hc.failedEq, hfil]
            simp only [List.map_cons, List.map_nil]
            rw [hsf.2.2.1, hsf.2.2.2.1]
        · show (↑((t.completed ++ [(r.idx, g)]).map Prod.fst) : Multiset Nat) +
              ↑(slotIdxList none) =
            ↑(t.completed.map Prod.fst) + ↑(slotIdxList (some r)) +
              ↑(List.range' t.runCount (t.runCount - t.runCount))
          rw [slotIdxList_none, slotIdxList_some, Nat.sub_self, List.range'_zero,
            List.map_append, ← Multiset.coe_add, Multiset.coe_nil]
          show _ + 0 = _
          simp only [List.map_cons, List.map_nil]
      · simp only [stepGpu, if_pos hex, if_neg hcode]
        refine ⟨?_, by simp, ⟨[], by simp⟩, le_refl _, ?_⟩
        · refine ⟨hc.exnF, hc.rc, hc.dIdx, hc.dLen, hc.dCmd, hc.qEq, ?_, ?_⟩
          · intro x hx
            rcases List.mem_append.mp hx with hx | hx
            · exact hc.compMem x hx
            · rcases List.mem_singleton.mp hx with rfl
              simpa [← hsf.2.2.1] using hsf.2.2.2.2.1
          · have hfil : List.filter (fun x => decide (e.code x.1 ≠ 0)) [(r.idx, g)] =
                [] := by simp [hcode]
            rw [List.filter_append, List.map_append, ← hc.failedEq, hfil]
            simp
        · show (↑((t.completed ++ [(r.idx, g)]).map Prod.fst) : Multiset Nat) +
              ↑(slotIdxList none) =
            ↑(t.completed.map Prod.fst) + ↑(slotIdxList (some r)) +
              ↑(List.range' t.runCount (t.runCount - t.runCount))
          rw [slotIdxList_none, slotIdxList_some, Nat.sub_self, List.range'_zero,
            List.map_append, ← Multiset.coe_add, Multiset.coe_nil]
          show _ + 0 = _
          simp only [List.map_cons, List.map_nil]
    · simp only [stepGpu, if_neg hex]
      obtain ⟨f1, f2, f3, f4, f5, f6, f7⟩ := hsf
      refine ⟨hc, ?_, ⟨[], by simp⟩, le_refl _, ?_⟩
      · rintro r2 hr2
        injection hr2 with hr2
        subst hr2
        exact ⟨f1, f2, f3, f4, f5, by omega, by omega⟩
      · rw [slotIdxList_some, Nat.sub_self, List.range'_zero, Multiset.coe_nil]
        abel

theorem range'_split {a b c : Nat} (h1 : a ≤ b) (h2 : b ≤ c) :
    List.range' a (c - a) = List.range' a (b - a) ++ List.range' b (c - b) := by
  have h := List.range'_append a (b - a) (c - b) 1
  simp only [one_mul] at h
  rw [show a + (b - a) = b from by omega] at h
  rw [show c - a = c - b + (b - a) from by omega, ← h]

/-- Everything one full slot sweep guarantees, relative to the entry core
state `t` and slot table `slots`. -/
def SweepPost (e : Env) (sd : String) (jobs : List (List String)) (iter : Nat)
    (slots : List (String × Option RunInfo)) (t : SchedCore)
    (res : List (String × Option RunInfo) × SchedCore) : Prop :=
  CoreInv e sd jobs res.2 ∧
  SlotsOK e sd jobs res.2 (iter + 1) res.1 ∧
  (∃ ext, res.2.dispatched = t.dispatched ++ ext) ∧
  t.runCount ≤ res.2.runCount ∧
  ((↑(res.2.completed.map Prod.fst) : Multiset Nat) + ↑(busyIdxs res.1) =
    ↑(t.completed.map Prod.fst) + ↑(busyIdxs slots) +
      ↑(List.range' t.runCount (res.2.runCount - t.runCount)))

theorem sweepSlots_post (e : Env) (sd : String) (jobs : List (List String))
    (hspawn : ∀ i, e.spawnOk i = true) (iter : Nat) :
    ∀ (slots : List (String × Option RunInfo)) (t : SchedCore),
    CoreInv e sd jobs t → SlotsOK e sd jobs t iter slots →
    SweepPost e sd jobs iter slots t (sweepSlots e sd iter slots t) := by
  intro slots
  induction slots with
  | nil =>
    intro t hc hs
    refine ⟨hc, ?_, ⟨[], by simp [sweepSlots]⟩, le_refl _, ?_⟩
    · intro p hp
      simp [sweepSlots] at hp
    · simp [sweepSlots, busyIdxs, Multiset.coe_nil, Nat.sub_self]
  | cons p0 rest ih =>
    intro t hc hs
    obtain ⟨g, slot⟩ := p0
    simp only [sweepSlots, hc.exnF, Bool.false_eq_true, if_false]
    have hstep := stepGpu_post e sd jobs hspawn iter g slot t hc
      (fun r hr => hs (g, slot) (List.mem_cons_self _ _) r hr)
    obtain ⟨hc1, hfact1, hext1, hrc1, hm1⟩ := hstep
    have hsrest : SlotsOK e sd jobs (stepGpu e sd iter g slot t).2 iter rest := by
      intro p hp r hr
      exact (hs p (List.mem_cons_of_mem _ hp) r hr).mono hext1
    have hIH := ih (stepGpu e sd iter g slot t).2 hc1 hsrest
    obtain ⟨hc2, hok2, hext2, hrc2, hm2⟩ := hIH
    refine ⟨hc2, ?_, ?_, le_trans hrc1 hrc2, ?_⟩
    · intro p hp r hr
      rcases List.mem_cons.mp hp with rfl | hp
      · exact (hfact1 r hr).mono hext2
      · exact hok2 p hp r hr
    · obtain ⟨x1, hx1⟩ := hext1
      obtain ⟨x2, hx2⟩ := hext2
      exact ⟨x1 ++ x2, by rw [hx2, hx1, List.append_assoc]⟩
    · have hsplit : List.range' t.runCount
            ((sweepSlots e sd iter rest (stepGpu e sd iter g slot t).2).2.runCount -
              t.runCount) =
          List.range' t.runCount ((stepGpu e sd iter g slot t).2.runCount - t.runCount) ++
          List.range' (stepGpu e sd iter g slot t).2.runCount
            ((sweepSlots e sd iter rest (stepGpu e sd iter g slot t).2).2.runCount -
              (stepGpu e sd iter g slot t).2.runCount) :=
        range'_split hrc1 hrc2
      rw [busyIdxs_cons, busyIdxs_cons, hsplit]
      rw [← Multiset.coe_add, ← Multiset.coe_add, ← Multiset.coe_add]
      calc (↑((sweepSlots e sd iter rest (stepGpu e sd iter g slot t).2).2.completed.map
              Prod.fst) : Multiset Nat) +
            (↑(slotIdxList (stepGpu e sd iter g slot t).1) +
              ↑(busyIdxs (sweepSlots e sd iter rest (stepGpu e sd iter g slot t).2).1)) =
          (↑((sweepSlots e sd iter rest (stepGpu e sd iter g slot t).2).2.completed.map
              Prod.fst) +
            ↑(busyIdxs (sweepSlots e sd iter rest (stepGpu e sd iter g slot t).2).1)) +
            ↑(slotIdxList (stepGpu e sd iter g slot t).1) := by abel
        _ = (↑((stepGpu e sd iter g slot t).2.completed.map Prod.fst) + ↑(busyIdxs rest) +
              ↑(List.range' (stepGpu e sd iter g slot t).2.runCount
                ((sweepSlots e sd iter rest (stepGpu e sd iter g slot t).2).2.runCount -
                  (stepGpu e sd iter g slot t).2.runCount))) +
            ↑(slotIdxList (stepGpu e sd iter g slot t).1) := by rw [hm2]
        _ = (↑((stepGpu e sd iter g slot t).2.completed.map Prod.fst) +
              ↑(slotIdxList (stepGpu e sd iter g slot t).1)) + ↑(busyIdxs rest) +
              ↑(List.range' (stepGpu e sd iter g slot t).2.runCount
                ((sweepSlots e sd iter rest (stepGpu e sd iter g slot t).2).2.runCount -
                  (stepGpu e sd iter g slot t).2.runCount)) := by abel
        _ = (↑(t.completed.map Prod.fst) + ↑(slotIdxList slot) +
              ↑(List.range' t.runCount ((stepGpu e sd iter g slot t).2.runCount -
                t.runCount))) + ↑(busyIdxs rest) +
              ↑(List.range' (stepGpu e sd iter g slot t).2.runCount
                ((sweepSlots e sd iter rest (stepGpu e sd iter g slot t).2).2.runCount -
                  (stepGpu e sd iter g slot t).2.runCount)) := by rw [hm1]
        _ = ↑(t.completed.map Prod.fst) + (↑(slotIdxList slot) + ↑(busyIdxs rest)) +
            (↑(List.range' t.runCount ((stepGpu e sd iter g slot t).2.runCount -
                t.runCount)) +
              ↑(List.range' (stepGpu e sd iter g slot t).2.runCount
                ((sweepSlots e sd iter rest (stepGpu e sd iter g slot t).2).2.runCount -
                  (stepGpu e sd iter g slot t).2.runCount))) := by abel

theorem schedStep_inv (e : Env) (sd : String) (gpus : List String)
    (jobs : List (List String)) (hspawn : ∀ i, e.spawnOk i = true)
    (st : SchedState) (h : Inv e sd gpus jobs st) :
    Inv e sd gpus jobs (schedStep e sd st) := by
  unfold schedStep
  by_cases hstop : (st.core.exn || loopDone st) = true
  · rw [if_pos hstop]
    exact h
  · rw [if_neg hstop]
    show Inv e sd gpus jobs
      ⟨(sweepSlots e sd st.iter st.slots st.core).1,
        (sweepSlots e sd st.iter st.slots st.core).2, st.iter + 1⟩
    obtain ⟨hc2, hok2, hext2, hrc2, hm2⟩ :=
      sweepSlots_post e sd jobs hspawn st.iter st.slots st.core h.core h.slotsOK
    have hperm : ((sweepSlots e sd st.iter st.slots st.core).2.completed.map Prod.fst ++
          busyIdxs (sweepSlots e sd st.iter st.slots st.core).1).Perm
        ((st.core.completed.map Prod.fst ++ busyIdxs st.slots) ++
          List.range' st.core.runCount
            ((sweepSlots e sd st.iter st.slots st.core).2.runCount - st.core.runCount)) := by
      rw [← Multiset.coe_eq_coe]
      simp only [← Multiset.coe_add]
      exact hm2
    have hlen2 : (sweepSlots e sd st.iter st.slots st.core).2.dispatched.length =
        st.core.dispatched.length +
          ((sweepSlots e sd st.iter st.slots st.core).2.runCount - st.core.runCount) := by
      have h1 := hc2.rc
      have h2 := h.core.rc
      omega
    have hnodups : ((st.core.completed.map Prod.fst ++ busyIdxs st.slots) ++
        List.range' st.core.runCount
          ((sweepSlots e sd st.iter st.slots st.core).2.runCount -
            st.core.runCount)).Nodup := by
      refine List.Nodup.append h.partNodup ?_ ?_
      · exact List.nodup_range' _ _
      · intro a ha ha'
        have h1 := (h.partMem a).mp ha
        have h2 := (List.mem_range'_1.mp ha').1
        have h3 := h.core.rc
        omega
    refine ⟨hc2, ?_, hok2, ?_, ?_⟩
    · exact (sweepSlots_keys e sd st.iter st.slots st.core).trans h.keys
    · exact hperm.nodup_iff.mpr hnodups
    · intro i
      dsimp only
      rw [hperm.mem_iff]
      have hold := h.partMem i
      have hrcq := h.core.rc
      constructor
      · intro hi
        rcases List.mem_append.mp hi with hi | hi
        · have := hold.mp hi
          omega
        · have := List.mem_range'_1.mp hi
          omega
      · rintro ⟨h1, h2⟩
        by_cases hle : i ≤ st.core.dispatched.length
        · exact List.mem_append_left _ (hold.mpr ⟨h1, hle⟩)
        · refine List.mem_append_right _ (List.mem_range'_1.mpr ⟨by omega, by omega⟩)

theorem busyIdxs_init (gpus : List String) :
    busyIdxs ((pyDedup gpus).map (fun g => (g, none))) = [] := by
  induction pyDedup gpus with
  | nil => rfl
  | cons g rest ih => simp [busyIdxs, List.filterMap_cons]

theorem Inv_init (e : Env) (sd : String) (gpus : List String)
    (jobs : List (List String)) :
    Inv e sd gpus jobs (initState gpus jobs) := by
  refine ⟨⟨rfl, rfl, rfl, by simp [initState], by simp [initState],
    (List.drop_zero jobs).symm, by simp [initState], rfl⟩, ?_, ?_, ?_, ?_⟩
  · show ((pyDedup gpus).map (fun g => (g, none))).map Prod.fst = pyDedup gpus
    have hcomp : (Prod.fst ∘ fun g : String => (g, (none : Option RunInfo))) = id := rfl
    rw [List.map_map, hcomp, List.map_id]
  · intro p hp r hr
    rcases List.mem_map.mp hp with ⟨g, _, rfl⟩
    exact absurd hr (by simp)
  · show (([] : List (Nat × String)).map Prod.fst ++
      busyIdxs ((pyDedup gpus).map (fun g => (g, none)))).Nodup
    rw [busyIdxs_init]
    exact List.nodup_nil
  · intro i
    show i ∈ ([] : List (Nat × String)).map Prod.fst ++
        busyIdxs ((pyDedup gpus).map (fun g => (g, none))) ↔
      1 ≤ i ∧ i ≤ ([] : List (Nat × String × List String)).length
    rw [busyIdxs_init]
    simp
    omega

theorem Inv_trace (e : Env) (sd : String) (gpus : List String)
    (jobs : List (List String)) (hspawn : ∀ i, e.spawnOk i = true) (n : Nat) :
    Inv e sd gpus jobs (schedTrace e sd gpus jobs n) := by
  induction n with
  | zero => exact Inv_init e sd gpus jobs
  | succ n ih => exact schedStep_inv e sd gpus jobs hspawn _ ih

/-- The slot table's keys never change: one slot per distinct configured
device id, in declaration order, at every instant (no `spawnOk` assumption
needed — even a pending exception leaves the table intact). -/
theorem schedTrace_keys (e : Env) (sd : String) (gpus : List String)
    (jobs : List (List String)) (n : Nat) :
    (schedTrace e sd gpus jobs n).slots.map Prod.fst = pyDedup gpus := by
  induction n with
  | zero =>
    show ((pyDedup gpus).map (fun g => (g, none))).map Prod.fst = pyDedup gpus
    have hcomp : (Prod.fst ∘ fun g : String => (g, (none : Option RunInfo))) = id := rfl
    rw [List.map_map, hcomp, List.map_id]
  | succ n ih =>
    show (schedStep e sd (schedTrace e sd gpus jobs n)).slots.map Prod.fst = pyDedup gpus
    unfold schedStep
    by_cases hstop : ((schedTrace e sd gpus jobs n).core.exn ||
        loopDone (schedTrace e sd gpus jobs n)) = true
    · rw [if_pos hstop]
      exact ih
    · rw [if_neg hstop]
      exact (sweepSlots_keys e sd _ _ _).trans ih

/-- **C2.**  At every instant of the schedule, the number of slots holding
an active process is at most the number of device slots, the number of
device slots is at most the length of the configured device list, and each
device id owns exactly one slot entry (the key list has no duplicates), so
each slot holds at most one active run. -/
theorem claim2_no_oversubscription (e : Env) (sd : String) (gpus : List String)
    (jobs : List (List String)) (n : Nat) :
    busyCount (schedTrace e sd gpus jobs n).slots ≤
      (schedTrace e sd gpus jobs n).slots.length ∧
    (schedTrace e sd gpus jobs n).slots.length ≤ gpus.length ∧
    ((schedTrace e sd gpus jobs n).slots.map Prod.fst).Nodup := by
  have hk := schedTrace_keys e sd gpus jobs n
  have hlen : (schedTrace e sd gpus jobs n).slots.length = (pyDedup gpus).length := by
    rw [← hk, List.length_map]
  refine ⟨List.countP_le_length _, ?_, ?_⟩
  · rw [hlen]
    exact pyDedup_length_le gpus
  · rw [hk]
    exact pyDedup_nodup gpus

/-- **C10.**  The slot table is keyed by device id: duplicates in the
configured device list collapse into a single slot, so the effective
concurrency limit is the number of distinct device ids (strictly fewer than
the list length when the list has duplicates), and the number of busy slots
never exceeds it. -/
theorem claim10_duplicate_devices_collapse (e : Env) (sd : String)
    (gpus : List String) (jobs : List (List String)) (n : Nat) :
    (initState gpus jobs).slots.length = (pyDedup gpus).length ∧
    (pyDedup gpus).Nodup ∧
    (∀ g, g ∈ pyDedup gpus ↔ g ∈ gpus) ∧
    busyCount (schedTrace e sd gpus jobs n).slots ≤ (pyDedup gpus).length ∧
    (¬ gpus.Nodup → (pyDedup gpus).length < gpus.length) := by
  refine ⟨?_, pyDedup_nodup gpus, fun g => pyDedup_mem gpus g, ?_,
    pyDedup_length_lt gpus⟩
  · show ((pyDedup gpus).map (fun g => (g, none))).length = (pyDedup gpus).length
    exact List.length_map _ _
  · have hk := schedTrace_keys e sd gpus jobs n
    have hlen : (schedTrace e sd gpus jobs n).slots.length = (pyDedup gpus).length := by
      rw [← hk, List.length_map]
    rw [← hlen]
    exact List.countP_le_length _

theorem claim10_witness :
    ¬ (["0", "0"] : List String).Nodup ∧
    (pyDedup ["0", "0"]).length < (["0", "0"] : List String).length :=
  ⟨by decide,
   (claim10_duplicate_devices_collapse ⟨fun _ => 0, fun _ => 0, fun _ => true⟩
     "sweep" ["0", "0"] [] 0).2.2.2.2 (by decide)⟩

/-! ### Termination

The loop terminates because a natural-number measure strictly decreases at
every iteration that is not yet done: every queued job will cost its
(finite) duration plus bookkeeping, and every busy slot's remaining
duration shrinks with each poll tick. -/

def qMeasure (e : Env) : Nat → List (List String) → Nat
  | _, [] => 0
  | rc, _ :: rest => (e.dur rc + 3) + qMeasure e (rc + 1) rest

def slotMeasure (e : Env) (iter : Nat) (slot : Option RunInfo) : Nat :=
  match slot with
  | none => 0
  | some r => (r.start + e.dur r.idx + 2) - iter

def bMeasure (e : Env) (iter : Nat) (slots : List (String × Option RunInfo)) : Nat :=
  (slots.map (fun p => slotMeasure e iter p.2)).sum

def schedMeasure (e : Env) (st : SchedState) : Nat :=
  qMeasure e st.core.runCount st.core.queue + bMeasure e st.iter st.slots

theorem stepGpu_measure (e : Env) (sd : String)
    (hspawn : ∀ i, e.spawnOk i = true)
    (iter : Nat) (g : String) (slot : Option RunInfo) (t : SchedCore) :
    qMeasure e (stepGpu e sd iter g slot t).2.runCount
        (stepGpu e sd iter g slot t).2.queue +
      slotMeasure e (iter + 1) (stepGpu e sd iter g slot t).1 ≤
    qMeasure e t.runCount t.queue + slotMeasure e (iter + 1) slot := by
  rcases slot with _ | r
  · cases hq : t.queue with
    | nil => simp [stepGpu, hq]
    | cons c rest =>
      simp only [stepGpu, hq, hspawn t.runCount, if_pos]
      have h1 : slotMeasure e (iter + 1)
          (some ⟨t.runCount, c, runDirOf sd t.runCount, iter⟩) =
          (iter + e.dur t.runCount + 2) - (iter + 1) := rfl
      have h2 : slotMeasure e (iter + 1) (none : Option RunInfo) = 0 := rfl
      rw [h1, h2]
      show qMeasure e (t.runCount + 1) rest + _ ≤ (e.dur t.runCount + 3) +
        qMeasure e (t.runCount + 1) rest + 0
      omega
  · by_cases hex : r.start + e.dur r.idx ≤ iter
    · by_cases hcode : e.code r.idx ≠ 0
      · simp only [stepGpu, if_pos hex, if_pos hcode]
        show qMeasure e t.runCount t.queue + 0 ≤ _
        omega
      · simp only [stepGpu, if_pos hex, if_neg hcode]
        show qMeasure e t.runCount t.queue + 0 ≤ _
        omega
    · simp only [stepGpu, if_neg hex]
      exact le_refl _

theorem stepGpu_exn (e : Env) (sd : String)
    (hspawn : ∀ i, e.spawnOk i = true)
    (iter : Nat) (g : String) (slot : Option RunInfo) (t : SchedCore) :
    (stepGpu e sd iter g slot t).2.exn = t.exn := by
  rcases slot with _ | r
  · cases hq : t.queue with
    | nil => simp [stepGpu, hq]
    | cons c rest => simp [stepGpu, hq, hspawn t.runCount]
  · by_cases hex : r.start + e.dur r.idx ≤ iter
    · by_cases hcode : e.code r.idx ≠ 0
      · simp [stepGpu, if_pos hex, if_pos hcode]
      · simp [stepGpu, if_pos hex, if_neg hcode]
    · simp [stepGpu, if_neg hex]

theorem sweepSlots_measure (e : Env) (sd : String)
    (hspawn : ∀ i, e.spawnOk i = true) (iter : Nat) :
    ∀ (slots : List (String × Option RunInfo)) (t : SchedCore), t.exn = false →
    qMeasure e (sweepSlots e sd iter slots t).2.runCount
        (sweepSlots e sd iter slots t).2.queue +
      bMeasure e (iter + 1) (sweepSlots e sd iter slots t).1 ≤
    qMeasure e t.runCount t.queue + bMeasure e (iter + 1) slots := by
  intro slots
  induction slots with
  | nil => intro t hexn; simp [sweepSlots]
  | cons p0 rest ih =>
    intro t hexn
    obtain ⟨g, slot⟩ := p0
    simp only [sweepSlots, hexn, Bool.false_eq_true, if_false]
    have hstep := stepGpu_measure e sd hspawn iter g slot t
    have hexn1 : (stepGpu e sd iter g slot t).2.exn = false := by
      rw [stepGpu_exn e sd hspawn, hexn]
    have hIH := ih (stepGpu e sd iter g slot t).2 hexn1
    show qMeasure e _ _ +
        ((slotMeasure e (iter + 1) (stepGpu e sd iter g slot t).1) +
          (List.map (fun p => slotMeasure e (iter + 1) p.2)
            (sweepSlots e sd iter rest (stepGpu e sd iter g slot t).2).1).sum) ≤
      qMeasure e t.runCount t.queue +
        ((slotMeasure e (iter + 1) slot) +
          (List.map (fun p => slotMeasure e (iter + 1) p.2) rest).sum)
    have hb1 : (List.map (fun p => slotMeasure e (iter + 1) p.2)
        (sweepSlots e sd iter rest (stepGpu e sd iter g slot t).2).1).sum =
        bMeasure e (iter + 1) (sweepSlots e sd iter rest (stepGpu e sd iter g slot t).2).1 := rfl
    have hb2 : (List.map (fun p => slotMeasure e (iter + 1) p.2) rest).sum =
        bMeasure e (iter + 1) rest := rfl
    rw [hb1, hb2]
    omega

theorem bMeasure_tick (e : Env) (sd : String) (jobs : List (List String))
    (t : SchedCore) (iter : Nat) :
    ∀ (slots : List (String × Option RunInfo)),
    SlotsOK e sd jobs t iter slots →
    (bMeasure e (iter + 1) slots ≤ bMeasure e iter slots ∧
      ((∃ p ∈ slots, p.2.isSome) →
        bMeasure e (iter + 1) slots < bMeasure e iter slots)) := by
  intro slots
  induction slots with
  | nil =>
    intro _
    refine ⟨le_refl _, ?_⟩
    rintro ⟨p, hp, _⟩
    simp at hp
  | cons p0 rest ih =>
    intro hok
    obtain ⟨g, slot⟩ := p0
    have hrest := ih (fun p hp r hr => hok p (List.mem_cons_of_mem _ hp) r hr)
    have hhead : slotMeasure e (iter + 1) slot ≤ slotMeasure e iter slot ∧
        (slot.isSome → slotMeasure e (iter + 1) slot < slotMeasure e iter slot) := by
      rcases slot with _ | r
      · exact ⟨le_refl _, by simp⟩
      · have hf := hok (g, some r) (List.mem_cons_self _ _) r rfl
        have h7 := hf.2.2.2.2.2.2
        have hm1 : slotMeasure e (iter + 1) (some r) =
            (r.start + e.dur r.idx + 2) - (iter + 1) := rfl
        have hm2 : slotMeasure e iter (some r) =
            (r.start + e.dur r.idx + 2) - iter := rfl
        constructor
        · rw [hm1, hm2]; omega
        · intro _
          rw [hm1, hm2]
          omega
    have hb1 : bMeasure e (iter + 1) ((g, slot) :: rest) =
        slotMeasure e (iter + 1) slot + bMeasure e (iter + 1) rest := rfl
    have hb2 : bMeasure e iter ((g, slot) :: rest) =
        slotMeasure e iter slot + bMeasure e iter rest := rfl
    rw [hb1, hb2]
    refine ⟨by omega, ?_⟩
    rintro ⟨p, hp, hsome⟩
    rcases List.mem_cons.mp hp with rfl | hp
    · have := hhead.2 hsome
      have := hrest.1
      omega
    · have := hrest.2 ⟨p, hp, hsome⟩
      have := hhead.1
      omega

theorem bMeasure_all_none (e : Env) (i : Nat) :
    ∀ (slots : List (String × Option RunInfo)),
    (∀ p ∈ slots, p.2 = none) → bMeasure e i slots = 0 := by
  intro slots
  induction slots with
  | nil => intro _; rfl
  | cons p rest ih =>
    intro h
    have hp := h p (List.mem_cons_self _ _)
    have hb : bMeasure e i (p :: rest) = slotMeasure e i p.2 + bMeasure e i rest := rfl
    rw [hb, hp, ih (fun q hq => h q (List.mem_cons_of_mem _ hq))]
    rfl

/-- An all-idle sweep with a non-empty queue dispatches at its first slot
and strictly shrinks the measure. -/
theorem sweepSlots_dispatch_measure (e : Env) (sd : String)
    (hspawn : ∀ i, e.spawnOk i = true) (iter : Nat) (g0 : String)
    (rest : List (String × Option RunInfo)) (t : SchedCore)
    (hexn : t.exn = false) (c : List String) (cs : List (List String))
    (hq : t.queue = c :: cs) (hrest : ∀ p ∈ rest, p.2 = none) :
    qMeasure e (sweepSlots e sd iter ((g0, none) :: rest) t).2.runCount
        (sweepSlots e sd iter ((g0, none) :: rest) t).2.queue +
      bMeasure e (iter + 1) (sweepSlots e sd iter ((g0, none) :: rest) t).1 <
    qMeasure e t.runCount t.queue + bMeasure e iter ((g0, none) :: rest) := by
  have ht1 : stepGpu e sd iter g0 none t =
      (some ⟨t.runCount, c, runDirOf sd t.runCount, iter⟩,
        { t with queue := cs, runCount := t.runCount + 1,
                 dispatched := t.dispatched ++ [(t.runCount, g0, c)] }) := by
    simp [stepGpu, hq, hspawn t.runCount]
  have hexn1 : (stepGpu e sd iter g0 none t).2.exn = false := by
    rw [ht1]
    exact hexn
  have hsw : sweepSlots e sd iter ((g0, none) :: rest) t =
      ((g0, (stepGpu e sd iter g0 none t).1) ::
        (sweepSlots e sd iter rest (stepGpu e sd iter g0 none t).2).1,
       (sweepSlots e sd iter rest (stepGpu e sd iter g0 none t).2).2) := by
    simp only [sweepSlots, hexn, Bool.false_eq_true, if_false]
  rw [hsw]
  dsimp only
  have hIH := sweepSlots_measure e sd hspawn iter rest
    (stepGpu e sd iter g0 none t).2 hexn1
  have hbcons : bMeasure e (iter + 1)
      ((g0, (stepGpu e sd iter g0 none t).1) ::
        (sweepSlots e sd iter rest (stepGpu e sd iter g0 none t).2).1) =
      slotMeasure e (iter + 1) (stepGpu e sd iter g0 none t).1 +
        bMeasure e (iter + 1)
          (sweepSlots e sd iter rest (stepGpu e sd iter g0 none t).2).1 := rfl
  rw [hbcons]
  have hsm : slotMeasure e (iter + 1) (stepGpu e sd iter g0 none t).1 =
      (iter + e.dur t.runCount + 2) - (iter + 1) := by
    rw [ht1]
    rfl
  have hq1 : (stepGpu e sd iter g0 none t).2.queue = cs := by rw [ht1]
  have hrc1 : (stepGpu e sd iter g0 none t).2.runCount = t.runCount + 1 := by rw [ht1]
  rw [hq1, hrc1] at hIH
  rw [hsm]
  have hold : qMeasure e t.runCount t.queue =
      (e.dur t.runCount + 3) + qMeasure e (t.runCount + 1) cs := by
    rw [hq]
    rfl
  have hbrest0 : bMeasure e (iter + 1) rest = 0 := bMeasure_all_none e _ rest hrest
  rw [hbrest0] at hIH
  have hbold : bMeasure e iter ((g0, none) :: rest) = 0 := by
    refine bMeasure_all_none e _ _ ?_
    intro p hp
    rcases List.mem_cons.mp hp with rfl | hp
    · rfl
    · exact hrest p hp
  rw [hold, hbold]
  omega

theorem schedMeasure_decreases (e : Env) (sd : String) (gpus : List String)
    (jobs : List (List String)) (hspawn : ∀ i, e.spawnOk i = true)
    (hg : gpus ≠ []) (st : SchedState) (h : Inv e sd gpus jobs st)
    (hnot : loopDone st = false) :
    schedMeasure e (schedStep e sd st) < schedMeasure e st := by
  have hstop : (st.core.exn || loopDone st) = false := by
    rw [h.core.exnF, hnot]
    rfl
  unfold schedStep
  rw [hstop]
  show schedMeasure e ⟨(sweepSlots e sd st.iter st.slots st.core).1,
    (sweepSlots e sd st.iter st.slots st.core).2, st.iter + 1⟩ < schedMeasure e st
  have hsweep := sweepSlots_measure e sd hspawn st.iter st.slots st.core h.core.exnF
  have hnew : schedMeasure e ⟨(sweepSlots e sd st.iter st.slots st.core).1,
      (sweepSlots e sd st.iter st.slots st.core).2, st.iter + 1⟩ =
      qMeasure e (sweepSlots e sd st.iter st.slots st.core).2.runCount
        (sweepSlots e sd st.iter st.slots st.core).2.queue +
      bMeasure e (st.iter + 1) (sweepSlots e sd st.iter st.slots st.core).1 := rfl
  rw [hnew]
  by_cases hbusy : ∃ p ∈ st.slots, p.2.isSome
  · have htick := (bMeasure_tick e sd jobs st.core st.iter st.slots h.slotsOK).2 hbusy
    have : schedMeasure e st =
        qMeasure e st.core.runCount st.core.queue + bMeasure e st.iter st.slots := rfl
    omega
  · -- every slot is idle; the queue must be non-empty and some slot exists
    have hallnone : ∀ p ∈ st.slots, p.2 = none := by
      intro p hp
      by_contra hc
      exact hbusy ⟨p, hp, Option.ne_none_iff_isSome.mp hc⟩
    have hqne : st.core.queue ≠ [] := by
      intro hq
      have hdone : loopDone st = true := by
        rw [loopDone, List.isEmpty_iff.mpr hq]
        simp only [Bool.true_and, List.all_eq_true]
        intro p hp
        rw [Option.isNone_iff_eq_none]
        exact hallnone p hp
      rw [hdone] at hnot
      exact absurd hnot (by simp)
    have hslotsne : st.slots ≠ [] := by
      intro hsl
      rcases List.exists_cons_of_ne_nil hg with ⟨g1, gs, hgps⟩
      have hmem : g1 ∈ pyDedup gpus := by
        rw [pyDedup_mem, hgps]
        exact List.mem_cons_self _ _
      rw [← h.keys, hsl] at hmem
      simp at hmem
    rcases List.exists_cons_of_ne_nil hslotsne with ⟨s0, rest, hsl⟩
    obtain ⟨g0, slot0⟩ := s0
    have hslot0 : slot0 = none := hallnone (g0, slot0) (hsl ▸ List.mem_cons_self _ _)
    subst hslot0
    rcases List.exists_cons_of_ne_nil hqne with ⟨c, cs, hqcs⟩
    have hrest : ∀ p ∈ rest, p.2 = none := by
      intro p hp
      exact hallnone p (hsl ▸ List.mem_cons_of_mem _ hp)
    have hdec := sweepSlots_dispatch_measure e sd hspawn st.iter g0 rest st.core
      h.core.exnF c cs hqcs hrest
    rw [hsl]
    have holdm : schedMeasure e st =
        qMeasure e st.core.runCount st.core.queue + bMeasure e st.iter st.slots := rfl
    rw [holdm, hsl]
    exact hdec

/-- The scheduler terminates: for every environment in which every spawned
process eventually exits (any `dur`/`code`), a non-empty device list makes
the loop reach its exit condition in finitely many iterations. -/
theorem sched_terminates (e : Env) (sd : String) (gpus : List String)
    (jobs : List (List String)) (hspawn : ∀ i, e.spawnOk i = true)
    (hg : gpus ≠ []) :
    ∃ n, loopDone (schedTrace e sd gpus jobs n) = true := by
  by_contra hcon
  push_neg at hcon
  have hfalse : ∀ n, loopDone (schedTrace e sd gpus jobs n) = false := by
    intro n
    cases hl : loopDone (schedTrace e sd gpus jobs n)
    · rfl
    · exact absurd hl (hcon n)
  have hdec : ∀ n, schedMeasure e (schedTrace e sd gpus jobs (n + 1)) <
      schedMeasure e (schedTrace e sd gpus jobs n) := by
    intro n
    exact schedMeasure_decreases e sd gpus jobs hspawn hg _
      (Inv_trace e sd gpus jobs hspawn n) (hfalse n)
  have hbound : ∀ n, schedMeasure e (schedTrace e sd gpus jobs n) + n ≤
      schedMeasure e (schedTrace e sd gpus jobs 0) := by
    intro n
    induction n with
    | zero => omega
    | succ k ih =>
      have := hdec k
      omega
  have := hbound (schedMeasure e (schedTrace e sd gpus jobs 0) + 1)
  omega

/-! ### Facts about the final state -/

theorem loopDone_queue {st : SchedState} (hd : loopDone st = true) :
    st.core.queue = [] := by
  rw [loopDone, Bool.and_eq_true] at hd
  exact List.isEmpty_iff.mp hd.1

theorem loopDone_idle {st : SchedState} (hd : loopDone st = true) :
    ∀ p ∈ st.slots, p.2 = none := by
  rw [loopDone, Bool.and_eq_true, List.all_eq_true] at hd
  intro p hp
  exact Option.isNone_iff_eq_none.mp (hd.2 p hp)

theorem loopDone_of_conds {st : SchedState} (h1 : st.core.queue = [])
    (h2 : ∀ p ∈ st.slots, p.2 = none) : loopDone st = true := by
  rw [loopDone, Bool.and_eq_true, List.isEmpty_iff, List.all_eq_true]
  exact ⟨h1, fun p hp => Option.isNone_iff_eq_none.mpr (h2 p hp)⟩

theorem done_dispatched_length {e : Env} {sd : String} {gpus : List String}
    {jobs : List (List String)} {st : SchedState}
    (h : Inv e sd gpus jobs st) (hd : loopDone st = true) :
    st.core.dispatched.length = jobs.length := by
  have hq := loopDone_queue hd
  rw [h.core.qEq] at hq
  have hle : jobs.length ≤ st.core.dispatched.length := List.drop_eq_nil_iff.mp hq
  have := h.core.dLen
  omega

theorem busyIdxs_eq_nil_of_idle :
    ∀ (slots : List (String × Option RunInfo)),
    (∀ p ∈ slots, p.2 = none) → busyIdxs slots = [] := by
  intro slots
  induction slots with
  | nil => intro _; rfl
  | cons p rest ih =>
    intro h
    have hp := h p (List.mem_cons_self _ _)
    obtain ⟨g, slot⟩ := p
    simp only at hp
    subst hp
    simp only [busyIdxs, List.filterMap_cons] at ih ⊢
    exact ih (fun q hq => h q (List.mem_cons_of_mem _ hq))

theorem map_getD_range' (jobs : List (List String)) :
    ∀ len, len ≤ jobs.length →
    (List.range' 1 len).map (fun i => jobs.getD (i - 1) []) = jobs.take len := by
  intro len
  induction len with
  | zero => intro _; simp
  | succ k ih =>
    intro h
    rw [List.range'_concat, List.map_append, ih (by omega)]
    simp only [List.map_cons, List.map_nil]
    rw [List.take_succ]
    congr 1
    have h1 : 1 + 1 * k - 1 = k := by omega
    rw [h1]
    have hk : k < jobs.length := by omega
    rw [List.getD_eq_getElem?_getD, List.getElem?_eq_getElem hk]
    rfl

/-- At any invariant-satisfying state, the commands dispatched so far are
exactly the first `dispatched.length` jobs, in order. -/
theorem dispatched_cmds_eq {e : Env} {sd : String} {gpus : List String}
    {jobs : List (List String)} {st : SchedState} (h : Inv e sd gpus jobs st) :
    st.core.dispatched.map (fun d => d.2.2) =
      jobs.take st.core.dispatched.length := by
  have h1 : st.core.dispatched.map (fun d => d.2.2) =
      st.core.dispatched.map (fun d => cmdOf jobs d.1) :=
    List.map_congr_left (fun d hd => h.core.dCmd d hd)
  have h2 : (fun d : Nat × String × List String => cmdOf jobs d.1) =
      ((fun i => cmdOf jobs i) ∘ (fun d : Nat × String × List String => d.1)) := rfl
  rw [h1, h2, ← List.map_map, h.core.dIdx]
  exact map_getD_range' jobs _ h.core.dLen

/-! ## Claims about the scheduler loop -/

/-- **C1.**  For a non-empty device list, in every environment where all
spawns succeed and every launched process eventually exits (`dur` total):
an empty job list makes the loop condition fail at once and `schedule`
return the empty Failure list; the loop exits exactly when the queue is
empty and no slot holds an active run; the queue is always the
not-yet-dispatched suffix of `jobs` (popped only from the front, never
re-queued); and some iteration count `n` reaches the exit condition with
the dispatch log containing every job exactly once, in order, at which
point `schedule` returns the accumulated Failure list. -/
theorem claim1_dispatch_and_termination (e : Env) (sd : String)
    (gpus : List String) (jobs : List (List String))
    (hg : gpus ≠ []) (hspawn : ∀ i, e.spawnOk i = true) :
    (jobs = [] → loopDone (schedTrace e sd gpus jobs 0) = true ∧
      schedule e gpus jobs sd 0 = some []) ∧
    (∀ m, loopDone (schedTrace e sd gpus jobs m) = true ↔
      ((schedTrace e sd gpus jobs m).core.queue = [] ∧
        ∀ p ∈ (schedTrace e sd gpus jobs m).slots, p.2 = none)) ∧
    (∀ m, (schedTrace e sd gpus jobs m).core.queue =
      jobs.drop (schedTrace e sd gpus jobs m).core.dispatched.length) ∧
    ∃ n, loopDone (schedTrace e sd gpus jobs n) = true ∧
      (schedTrace e sd gpus jobs n).core.dispatched.map (fun d => d.2.2) = jobs ∧
      (schedTrace e sd gpus jobs n).core.queue = [] ∧
      schedule e gpus jobs sd n =
        some (schedTrace e sd gpus jobs n).core.failed := by
  refine ⟨?_, ?_, ?_, ?_⟩
  · rintro rfl
    have hd : loopDone (schedTrace e sd gpus [] 0) = true := by
      refine loopDone_of_conds rfl ?_
      intro p hp
      rcases List.mem_map.mp hp with ⟨g, _, rfl⟩
      rfl
    refine ⟨hd, ?_⟩
    rw [schedule, if_pos hd]
    rfl
  · intro m
    constructor
    · intro hd
      exact ⟨loopDone_queue hd, loopDone_idle hd⟩
    · rintro ⟨h1, h2⟩
      exact loopDone_of_conds h1 h2
  · intro m
    exact (Inv_trace e sd gpus jobs hspawn m).core.qEq
  · obtain ⟨n, hn⟩ := sched_terminates e sd gpus jobs hspawn hg
    have hinv := Inv_trace e sd gpus jobs hspawn n
    have hlen := done_dispatched_length hinv hn
    refine ⟨n, hn, ?_, loopDone_queue hn, ?_⟩
    · rw [dispatched_cmds_eq hinv, hlen]
      exact List.take_length jobs
    · rw [schedule, if_pos hn]

theorem claim1_witness :
    ∃ n, loopDone (schedTrace ⟨fun _ => 1, fun _ => 0, fun _ => true⟩ "sweep"
        ["0"] [["python", "toy.py"]] n) = true ∧
      (schedTrace ⟨fun _ => 1, fun _ => 0, fun _ => true⟩ "sweep"
        ["0"] [["python", "toy.py"]] n).core.dispatched.map (fun d => d.2.2) =
        [["python", "toy.py"]] ∧
      (schedTrace ⟨fun _ => 1, fun _ => 0, fun _ => true⟩ "sweep"
        ["0"] [["python", "toy.py"]] n).core.queue = [] ∧
      schedule ⟨fun _ => 1, fun _ => 0, fun _ => true⟩ ["0"]
        [["python", "toy.py"]] "sweep" n =
        some (schedTrace ⟨fun _ => 1, fun _ => 0, fun _ => true⟩ "sweep"
          ["0"] [["python", "toy.py"]] n).core.failed :=
  (claim1_dispatch_and_termination ⟨fun _ => 1, fun _ => 0, fun _ => true⟩
    "sweep" ["0"] [["python", "toy.py"]] (by decide) (fun i => rfl)).2.2.2

/-- **C3.**  At every instant the run indices recorded in the dispatch log
are exactly `1, 2, …, k` in dispatch order (`k` = dispatches so far):
strictly increasing, gap-free, repeat-free, each allocated at the moment
its job was bound to an idle slot (the log entry is appended at binding
time, when `run_count` is read and then incremented).  For a non-empty
device list the sweep completes with the indices being exactly
`1..N`, `N` = job count. -/
theorem claim3_run_indices (e : Env) (sd : String) (gpus : List String)
    (jobs : List (List String)) (hg : gpus ≠ [])
    (hspawn : ∀ i, e.spawnOk i = true) :
    (∀ m, (schedTrace e sd gpus jobs m).core.dispatched.map (fun d => d.1) =
      List.range' 1 (schedTrace e sd gpus jobs m).core.dispatched.length) ∧
    ∃ n, loopDone (schedTrace e sd gpus jobs n) = true ∧
      (schedTrace e sd gpus jobs n).core.dispatched.map (fun d => d.1) =
        List.range' 1 jobs.length := by
  constructor
  · intro m
    exact (Inv_trace e sd gpus jobs hspawn m).core.dIdx
  · obtain ⟨n, hn⟩ := sched_terminates e sd gpus jobs hspawn hg
    have hinv := Inv_trace e sd gpus jobs hspawn n
    refine ⟨n, hn, ?_⟩
    rw [hinv.core.dIdx, done_dispatched_length hinv hn]

theorem claim3_witness :
    ∃ n, loopDone (schedTrace ⟨fun _ => 2, fun _ => 1, fun _ => true⟩ "sweep"
        ["0", "1"] [["a"], ["b"], ["c"]] n) = true ∧
      (schedTrace ⟨fun _ => 2, fun _ => 1, fun _ => true⟩ "sweep"
        ["0", "1"] [["a"], ["b"], ["c"]] n).core.dispatched.map (fun d => d.1) =
        List.range' 1 3 :=
  (claim3_run_indices ⟨fun _ => 2, fun _ => 1, fun _ => true⟩ "sweep"
    ["0", "1"] [["a"], ["b"], ["c"]] (by decide) (fun i => rfl)).2

/-- **C4.**  For a non-empty device list, when the sweep completes every
slot has been released to idle and there is a duplicate-free list `l` of
(run index, device) completions such that: an index appears in `l` exactly
when its run exited non-zero; the Failure list is exactly the image of `l`,
each record carrying the device the run was dispatched on, its run
directory `sd/run_<i>`, its command, and its exit code; hence a run exiting
`0` contributes no Failure record and a run exiting non-zero contributes
exactly one, with the matching exit code. -/
theorem claim4_failure_classification (e : Env) (sd : String)
    (gpus : List String) (jobs : List (List String)) (hg : gpus ≠ [])
    (hspawn : ∀ i, e.spawnOk i = true) :
    ∃ n, loopDone (schedTrace e sd gpus jobs n) = true ∧
      (∀ p ∈ (schedTrace e sd gpus jobs n).slots, p.2 = none) ∧
      ∃ l : List (Nat × String),
        (l.map Prod.fst).Nodup ∧
        (∀ i, i ∈ l.map Prod.fst ↔
          (1 ≤ i ∧ i ≤ jobs.length ∧ e.code i ≠ 0)) ∧
        (schedTrace e sd gpus jobs n).core.failed =
          l.map (fun c => ⟨c.2, runDirOf sd c.1, cmdOf jobs c.1, e.code c.1⟩) ∧
        (∀ c ∈ l, (c.1, c.2, cmdOf jobs c.1) ∈
          (schedTrace e sd gpus jobs n).core.dispatched) := by
  obtain ⟨n, hn⟩ := sched_terminates e sd gpus jobs hspawn hg
  have hinv := Inv_trace e sd gpus jobs hspawn n
  have hidle := loopDone_idle hn
  have hlen := done_dispatched_length hinv hn
  have hbusy : busyIdxs (schedTrace e sd gpus jobs n).slots = [] :=
    busyIdxs_eq_nil_of_idle _ hidle
  have hcompnd : ((schedTrace e sd gpus jobs n).core.completed.map Prod.fst).Nodup := by
    have := hinv.partNodup
    rw [hbusy, List.append_nil] at this
    exact this
  have hcompmem : ∀ i,
      i ∈ (schedTrace e sd gpus jobs n).core.completed.map Prod.fst ↔
      (1 ≤ i ∧ i ≤ jobs.length) := by
    intro i
    have := hinv.partMem i
    rw [hbusy, List.append_nil, hlen] at this
    exact this
  refine ⟨n, hn, hidle,
    (schedTrace e sd gpus jobs n).core.completed.filter
      (fun c => decide (e.code c.1 ≠ 0)), ?_, ?_, hinv.core.failedEq, ?_⟩
  · exact hcompnd.sublist ((List.filter_sublist _).map Prod.fst)
  · intro i
    constructor
    · intro hi
      rcases List.mem_map.mp hi with ⟨c, hc, rfl⟩
      rcases List.mem_filter.mp hc with ⟨hcm, hcode⟩
      have hm := (hcompmem c.1).mp (List.mem_map.mpr ⟨c, hcm, rfl⟩)
      exact ⟨hm.1, hm.2, by simpa using hcode⟩
    · rintro ⟨h1, h2, h3⟩
      rcases List.mem_map.mp ((hcompmem i).mpr ⟨h1, h2⟩) with ⟨c, hc, rfl⟩
      refine List.mem_map.mpr ⟨c, ?_, rfl⟩
      exact List.mem_filter.mpr ⟨hc, by simpa using h3⟩
  · intro c hc
    exact hinv.core.compMem c (List.mem_of_mem_filter hc)

theorem claim4_witness :
    ∃ n, loopDone (schedTrace ⟨fun _ => 1, fun i => if i = 2 then 5 else 0,
        fun _ => true⟩ "sweep" ["0", "1"] [["a"], ["b"], ["c"]] n) = true ∧
      (∀ p ∈ (schedTrace ⟨fun _ => 1, fun i => if i = 2 then 5 else 0,
        fun _ => true⟩ "sweep" ["0", "1"] [["a"], ["b"], ["c"]] n).slots,
        p.2 = none) ∧
      ∃ l : List (Nat × String),
        (l.map Prod.fst).Nodup ∧
        (∀ i, i ∈ l.map Prod.fst ↔
          (1 ≤ i ∧ i ≤ ([["a"], ["b"], ["c"]] : List (List String)).length ∧
            (if i = 2 then (5 : Int) else 0) ≠ 0)) ∧
        (schedTrace ⟨fun _ => 1, fun i => if i = 2 then 5 else 0,
          fun _ => true⟩ "sweep" ["0", "1"] [["a"], ["b"], ["c"]] n).core.failed =
          l.map (fun c => ⟨c.2, runDirOf "sweep" c.1,
            cmdOf [["a"], ["b"], ["c"]] c.1, if c.1 = 2 then 5 else 0⟩) ∧
        (∀ c ∈ l, (c.1, c.2, cmdOf [["a"], ["b"], ["c"]] c.1) ∈
          (schedTrace ⟨fun _ => 1, fun i => if i = 2 then 5 else 0,
            fun _ => true⟩ "sweep" ["0", "1"]
            [["a"], ["b"], ["c"]] n).core.dispatched) :=
  claim4_failure_classification
    ⟨fun _ => 1, fun i => if i = 2 then 5 else 0, fun _ => true⟩
    "sweep" ["0", "1"] [["a"], ["b"], ["c"]] (by decide) (fun i => rfl)

/-- The environment of C5's failing input: the first spawn raises (for
instance `FileNotFoundError` for a bad executable path). -/
def badEnv : Env := ⟨fun _ => 0, fun _ => 0, fun i => decide (i ≠ 1)⟩

/-- **C5 (the code contradicts the claim).**  With one device and two jobs
where the first job's executable cannot be spawned, the `Popen` exception
propagates out of `schedule` after one iteration: the exception flag is
set, no Failure record was appended, the second job is still queued and is
never dispatched, the loop exit condition never holds, and the state is
frozen forever (the sweep aborts instead of completing).  The claim says
the failed spawn should instead become an immediate per-run Failure with
the sweep completing. -/
theorem claim5_spawn_failure_aborts :
    (schedTrace badEnv "sweep" ["0"] [["bad"], ["ok"]] 1).core.exn = true ∧
    (schedTrace badEnv "sweep" ["0"] [["bad"], ["ok"]] 1).core.failed = [] ∧
    (schedTrace badEnv "sweep" ["0"] [["bad"], ["ok"]] 1).core.queue = [["ok"]] ∧
    (schedTrace badEnv "sweep" ["0"] [["bad"], ["ok"]] 1).core.dispatched = [] ∧
    loopDone (schedTrace badEnv "sweep" ["0"] [["bad"], ["ok"]] 1) = false ∧
    ∀ n, schedTrace badEnv "sweep" ["0"] [["bad"], ["ok"]] (1 + n) =
      schedTrace badEnv "sweep" ["0"] [["bad"], ["ok"]] 1 := by
  refine ⟨by decide, by decide, by decide, by decide, by decide, ?_⟩
  intro n
  induction n with
  | zero => rfl
  | succ k ih =>
    have h1 : 1 + (k + 1) = (1 + k) + 1 := by omega
    rw [h1]
    show schedStep badEnv "sweep"
      (schedTrace badEnv "sweep" ["0"] [["bad"], ["ok"]] (1 + k)) = _
    rw [ih]
    unfold schedStep
    rw [if_pos (by decide)]

end Sweeper
